import Mathlib

/-!
Shallow embedding of `markdownreveal` (file `src/markdownreveal/__init__.py`).

Python strings are Lean `String` (with the underlying character list used for
structural reasoning), Python lists are `List`, machine-level file system and
network access is abstracted into explicit boolean or value oracles that are
passed as arguments.  Fallible code is modelled with `Option` / explicit error
values: a Python exception corresponds to the error constructor.
-/

set_option autoImplicit false

/-! ### Python string primitives -/

/-- Boolean prefix test on character lists (`str.startswith` at a position). -/
def isPrefixL : List Char → List Char → Bool
  | [], _ => true
  | _ :: _, [] => false
  | a :: as, b :: bs => a == b && isPrefixL as bs

/-- Boolean substring test on character lists (`pat in s` / `re.search` of a
literal pattern). -/
def isInfixL (pat : List Char) : List Char → Bool
  | [] => pat.isEmpty
  | c :: cs => isPrefixL pat (c :: cs) || isInfixL pat cs

/-- Model of `re.search` for a pattern of the shape `p1.*p2` on a single line:
true iff some occurrence of `p1` is followed (possibly with characters in
between) by an occurrence of `p2`. -/
def contains2L (p1 p2 : List Char) : List Char → Bool
  | [] => isPrefixL p1 [] && isInfixL p2 []
  | c :: cs => (isPrefixL p1 (c :: cs) && isInfixL p2 ((c :: cs).drop p1.length))
      || contains2L p1 p2 cs

/-- Characters treated as line boundaries by Python `str.splitlines`. -/
def pyLineBreak (c : Char) : Bool :=
  c == '\n' || c == '\r' || c == '\u000B' || c == '\u000C' || c == '\u001C'
    || c == '\u001D' || c == '\u001E' || c == '\u0085' || c == '\u2028' || c == '\u2029'

/-- Worker for `str.splitlines`: `acc` holds the current line reversed. -/
def splitlinesGo : List Char → List Char → List (List Char)
  | acc, [] => if acc.isEmpty then [] else [acc.reverse]
  | acc, '\r' :: '\n' :: rest => acc.reverse :: splitlinesGo [] rest
  | acc, c :: rest =>
    if pyLineBreak c then acc.reverse :: splitlinesGo [] rest
    else splitlinesGo (c :: acc) rest

/-- Python `str.splitlines` (terminators dropped, no trailing empty line). -/
def pySplitlines (s : String) : List String :=
  (splitlinesGo [] s.toList).map String.mk

/-- Python `"\n".join(lines)`. -/
def joinLines (lines : List String) : String :=
  String.intercalate "\n" lines

/-- Python `list.insert(n, x)`: insert before index `n`, clamping `n` to the
list length (an out-of-range index appends at the end). -/
def pyInsert {α : Type} : List α → Nat → α → List α
  | l, 0, x => x :: l
  | [], _ + 1, x => [x]
  | a :: l, n + 1, x => a :: pyInsert l n x

/-- Worker for Python `str.replace` (all occurrences, leftmost first,
non-overlapping); `pat` is assumed non-empty at every call site. -/
def replaceAllSub (pat repl : List Char) : List Char → List Char
  | [] => []
  | c :: cs =>
    if pat ≠ [] ∧ isPrefixL pat (c :: cs) = true then
      repl ++ replaceAllSub pat repl ((c :: cs).drop pat.length)
    else
      c :: replaceAllSub pat repl cs
termination_by cs => cs.length
decreasing_by
  · simp only [List.length_drop, List.length_cons]
    have hp : 0 < pat.length := List.length_pos.mpr (by tauto)
    omega
  · simp

/-- Python `s.replace(pat, repl)` for a non-empty `pat`. -/
def pyReplace (pat repl s : String) : String :=
  String.mk (replaceAllSub pat.toList repl.toList s.toList)

/-! ### Python `pathlib` primitives (POSIX) -/

/-- Split a character list on `/` separators (keeping empty pieces). -/
def splitSlash : List Char → List (List Char)
  | [] => [[]]
  | c :: cs =>
    if c = '/' then [] :: splitSlash cs
    else
      match splitSlash cs with
      | [] => [[c]]
      | p :: ps => (c :: p) :: ps

/-- Join path components with `/` (Python `str(Path(*parts))` for non-empty
relative `parts`). -/
def joinSlash : List (List Char) → List Char
  | [] => []
  | [p] => p
  | p :: ps => p ++ '/' :: joinSlash ps

/-- Component list of a relative POSIX `pathlib.Path`: empty pieces and
single-dot pieces are normalized away (`PurePosixPath("a//./b").parts` is
`("a", "b")`). -/
def pyPartsL (cs : List Char) : List (List Char) :=
  (splitSlash cs).filter (fun p => p != [] && p != ['.'])

/-- Python `Path(s).is_absolute()` on POSIX. -/
def pyIsAbsolute (s : String) : Bool :=
  s.toList.head? == some '/'

/-- Normalisation performed by the `Path` constructor that matters to the
claims: `Path("")` is `Path(".")`, the current directory, so an existence
check on the empty string is an existence check on `"."`. -/
def pathNorm (s : String) : String :=
  if s = "" then "." else s

/-! ### Configuration and HTML markers (from `tweak_html`) -/

/-- Decoration fields of the configuration mapping read by `tweak_html`.
A missing field is modelled as the empty string (the packaged template
defines every field). -/
structure Config where
  custom_css : String
  warmup : String
  footer : String
  header : String
  logo : String
  background : String
deriving DecidableEq

/-- Line predicate induced by the regex `stylesheet.*id="theme"`. -/
def matchTheme (s : String) : Bool :=
  contains2L "stylesheet".toList "id=\"theme\"".toList s.toList

/-- Line predicate induced by the regex `div class="slides"` (a literal). -/
def matchSlides (s : String) : Bool :=
  isInfixL "div class=\"slides\"".toList s.toList

/-- Line predicate induced by the regex `<div class=\"reveal\">` (the escaped
quotes denote literal quote characters, so this is a literal substring). -/
def matchReveal (s : String) : Bool :=
  isInfixL "<div class=\"reveal\">".toList s.toList

/-- Line predicate induced by the regex `<section>` (a literal). -/
def matchSection (s : String) : Bool :=
  isInfixL "<section>".toList s.toList

/-- Worker for `find_indexes`, carrying the index of the current head. -/
def findIndexesFrom (pred : String → Bool) : Nat → List String → List Nat
  | _, [] => []
  | i, s :: rest =>
    if pred s then i :: findIndexesFrom pred (i + 1) rest
    else findIndexesFrom pred (i + 1) rest

/-- Embedding of `find_indexes(haystack, regex)` from the source: the indexes of the lines
on which `re.search(regex, line)` succeeds, in increasing order.  The regex
argument is modelled by the line predicate it induces. -/
def find_indexes (haystack : List String) (pred : String → Bool) : List Nat :=
  findIndexesFrom pred 0 haystack

/-- Text inserted by the custom-css branch of `tweak_html`. -/
def cssLink (css : String) : String :=
  "<link rel=\"stylesheet\" href=\"" ++ css ++ "\">"

/-- Text inserted by the warmup branch of `tweak_html`. -/
def warmupLine (w : String) : String :=
  "<section><img src=\"" ++ w ++ "\" /></section>"

/-- Text inserted by the footer branch of `tweak_html`. -/
def footerLine (f : String) : String :=
  "<div class=\"footer\">" ++ f ++ "</div>"

/-- Text inserted by the header branch of `tweak_html`. -/
def headerLine (h : String) : String :=
  "<div class=\"header\">" ++ h ++ "</div>"

/-- Text inserted by the logo branch of `tweak_html`. -/
def logoLine (l : String) : String :=
  "<div class=\"logo\"><img src=\"" ++ l ++ "\" /></div>"

/-- Replacement text of the background branch of `tweak_html`. -/
def bgTag (b : String) : String :=
  "<section data-background=\"" ++ b ++ "\">"

/-! ### `tweak_html` -/

/-- Custom-css branch: `if config["custom_css"]: html.insert(find_indexes(
html, ...)[0] + 1, text)`.  The `[0]` subscript raises `IndexError` on an
empty match list, modelled as `none`. -/
def cssStep (css : String) (lines : List String) : Option (List String) :=
  if css = "" then some lines
  else
    match (find_indexes lines matchTheme).head? with
    | none => none
    | some index => some (pyInsert lines (index + 1) (cssLink css))

/-- Warmup branch: guarded by `Path(config["warmup"]).exists()` where `fs` is
the file-system oracle; the `[0]` subscript raises on an empty match list. -/
def warmupStep (fs : String → Bool) (warmup : String) (lines : List String) :
    Option (List String) :=
  if fs (pathNorm warmup) then
    match (find_indexes lines matchSlides).head? with
    | none => none
    | some index => some (pyInsert lines (index + 1) (warmupLine warmup))
  else some lines

/-- The shared loop shape of the footer, header and logo branches:
`for index in find_indexes(html, ...): html.insert(index + 1, text)`.
The index list is computed once, before any insertion. -/
def insertAfterMatches (lines : List String) (pred : String → Bool) (text : String) :
    List String :=
  (find_indexes lines pred).foldl (fun acc index => pyInsert acc (index + 1) text) lines

/-- Footer branch, guarded by truthiness of the footer string. -/
def footerApply (footer : String) (lines : List String) : List String :=
  if footer = "" then lines
  else insertAfterMatches lines matchReveal (footerLine footer)

/-- Header branch, guarded by truthiness of the header string. -/
def headerApply (header : String) (lines : List String) : List String :=
  if header = "" then lines
  else insertAfterMatches lines matchReveal (headerLine header)

/-- Logo branch, guarded by `Path(config["logo"]).exists()`. -/
def logoApply (fs : String → Bool) (logo : String) (lines : List String) : List String :=
  if fs (pathNorm logo) then insertAfterMatches lines matchReveal (logoLine logo)
  else lines

/-- Background branch, guarded by `Path(config["background"]).exists()`:
`html[index] = html[index].replace("<section>", text)` in place for every
matched index. -/
def backgroundApply (fs : String → Bool) (background : String) (lines : List String) :
    List String :=
  if fs (pathNorm background) then
    (find_indexes lines matchSection).foldl
      (fun acc index => acc.set index (pyReplace "<section>" (bgTag background) (acc.getD index "")))
      lines
  else lines

/-- Embedding of `tweak_html(html, config)` from the source: split into lines, apply the
six decoration branches in source order, re-join with newlines.  `fs` models
`Path(...).exists()`; `none` models an uncaught `IndexError`. -/
def tweak_html (fs : String → Bool) (html : String) (config : Config) : Option String :=
  match cssStep config.custom_css (pySplitlines html) with
  | none => none
  | some l1 =>
    match warmupStep fs config.warmup l1 with
    | none => none
    | some l2 =>
      some (joinLines (backgroundApply fs config.background
        (logoApply fs config.logo
          (headerApply config.header
            (footerApply config.footer l2)))))

/-! ### `clean_revealjs_tar_members` -/

/-- A tar archive member; only its path name is read or written by the
cleaning function. -/
structure TarMember where
  name : String
deriving DecidableEq

/-- One iteration of the loop body of `clean_revealjs_tar_members`: `none`
models `continue`, `some` the member appended to the clean list (with its
name rewritten to the stripped path). -/
def cleanMember (m : TarMember) : Option TarMember :=
  if pyIsAbsolute m.name then none
  else
    match (pyPartsL m.name.toList).drop 1 with
    | [] => none
    | p :: ps =>
      if p = "test".toList then none
      else some ⟨String.mk (joinSlash (p :: ps))⟩

/-- Embedding of `clean_revealjs_tar_members(members)` from the source. -/
def clean_revealjs_tar_members (members : List TarMember) : List TarMember :=
  members.filterMap cleanMember

/-! ### `initialize_localdir` -/

/-- Release archive URL template of the source. -/
def revealUrl (v : String) : String :=
  "https://github.com/hakimel/reveal.js/archive/" ++ v ++ ".tar.gz"

/-- External effects visible to `initialize_localdir`: directory existence at
call time, the tag answered by `latest_revealjs_release()`, whether
`tar.extractall` succeeds, and the state of the `out/revealjs` symbolic link
(`priorLink` is its target if a link exists; `targetExists` resolves a link
target, which is what `Path.exists` does on a symbolic link). -/
structure ProvEnv where
  dirExists : String → Bool
  latestTag : String
  extractOk : Bool
  priorLink : Option String
  targetExists : String → Bool

/-- Exceptions `initialize_localdir` can raise in the modelled fragment. -/
inductive ProvError
  | extractError
  | fileExistsError
deriving DecidableEq

/-- Observable trace of one `initialize_localdir` call: the path given to the
existence check, the URL downloaded (if any), the directory passed to
`tar.extractall` (if reached), whether `os.remove` ran on the temporary
archive, whether the old symbolic link was unlinked, and the result (the
final symbolic-link target on success). -/
structure ProvTrace where
  checkedPath : String
  downloadedUrl : Option String
  extractTarget : Option String
  tmpDeleted : Bool
  unlinkedOld : Bool
  result : Except ProvError String

/-- The symbolic-link block at the end of `initialize_localdir`:
`if symlink.exists(): symlink.unlink()` followed by `symlink.symlink_to(...)`.
`Path.exists` follows the link, so a dangling link is not unlinked and the
subsequent `symlink_to` raises `FileExistsError`. -/
def symlinkPhase (env : ProvEnv) (reveal_path : String) : Bool × Except ProvError String :=
  match env.priorLink with
  | none => (false, Except.ok reveal_path)
  | some t =>
    if env.targetExists t then (true, Except.ok reveal_path)
    else (false, Except.error ProvError.fileExistsError)

/-- Embedding of `initialize_localdir(localdir, reveal_version)` from the source.  Note
that `reveal_path = localdir / reveal_version` is computed before the
`latest` resolution, so the existence check, the extraction directory and the
link target all use the version string as given. -/
def initialize_localdir (env : ProvEnv) (localdir reveal_version : String) : ProvTrace :=
  let reveal_path := localdir ++ "/" ++ reveal_version
  if env.dirExists reveal_path then
    let link := symlinkPhase env reveal_path
    { checkedPath := reveal_path, downloadedUrl := none, extractTarget := none,
      tmpDeleted := false, unlinkedOld := link.1, result := link.2 }
  else
    let v := if reveal_version = "latest" then env.latestTag else reveal_version
    let url := revealUrl v
    if env.extractOk then
      let link := symlinkPhase env reveal_path
      { checkedPath := reveal_path, downloadedUrl := some url,
        extractTarget := some reveal_path, tmpDeleted := true,
        unlinkedOld := link.1, result := link.2 }
    else
      { checkedPath := reveal_path, downloadedUrl := some url,
        extractTarget := some reveal_path, tmpDeleted := false,
        unlinkedOld := false, result := Except.error ProvError.extractError }

/-! ### `generate` -/

/-- External collaborators of one `generate()` call: whether
`initialize_localdir` succeeds, what the presentation directory contains
(rsync mirrors it into the output directory), the converter result, plus the
configuration and file-system oracle consumed by `tweak_html`. -/
structure GenEnv where
  cfg : Config
  fs : String → Bool
  provisionOk : Bool
  srcHasIndex : Bool
  srcIndexContent : String
  srcHasReload : Bool
  srcReloadLines : Nat
  convertResult : Except Unit String

/-- The part of the output directory state the atomicity claim is about:
the content (or absence) of `index.html` and the line count of `.reload`
(an absent file counts as zero lines). -/
structure BuildState where
  indexHtml : Option String
  reloadLines : Nat
deriving DecidableEq

/-- Outcome of one `generate()` call. -/
inductive BuildOutcome
  | ok
  | provisionError
  | convertError
  | tweakError
deriving DecidableEq

/-- Effect of the rsync step of `generate` on the modelled state: the command
`rsync --delete --exclude revealjs --exclude .git -av src/ out/` mirrors the
presentation directory, so `index.html` and `.reload` (neither of which is in
the exclude list) are replaced by the source copies, or deleted when the
source directory does not contain them. -/
def rsyncStep (env : GenEnv) (_ : BuildState) : BuildState :=
  { indexHtml := if env.srcHasIndex then some env.srcIndexContent else none,
    reloadLines := if env.srcHasReload then env.srcReloadLines else 0 }

/-- Embedding of `generate()` from the source, restricted to the modelled state: provision
(does not touch `index.html` or `.reload`), rsync mirror, convert, tweak,
write `index.html`, append one line to `.reload`.  An exception at any step
aborts the rest but keeps the effects already performed. -/
def generate (env : GenEnv) (s : BuildState) : BuildState × BuildOutcome :=
  if env.provisionOk then
    let s1 := rsyncStep env s
    match env.convertResult with
    | Except.error _ => (s1, BuildOutcome.convertError)
    | Except.ok html =>
      match tweak_html env.fs html env.cfg with
      | none => (s1, BuildOutcome.tweakError)
      | some out =>
        ({ indexHtml := some out, reloadLines := s1.reloadLines + 1 }, BuildOutcome.ok)
  else (s, BuildOutcome.provisionError)

/-! ### The debounced watcher (`Handler`) -/

/-- Simulation state of one `Handler` instance.  A `threading.Timer` started
at time `t` with period `d` is alive on `[t, t + d)` and runs `generate` at
`t + d` (build duration idealised to zero); the timer created unstarted in
`__init__` is never alive, hence `pending := none` initially.  `builds`
records the fire times of completed builds, oldest first. -/
structure HandlerSim where
  pending : Option Nat
  builds : List Nat
deriving DecidableEq

/-- Embedding of `Handler.on_any_event` at time `t`: if the current timer is alive the
event is ignored; otherwise (never started, or already fired, the fired build
being recorded now) a fresh timer is created and started. -/
def on_any_event (period : Nat) (st : HandlerSim) (t : Nat) : HandlerSim :=
  match st.pending with
  | none => { st with pending := some (t + period) }
  | some fireTime =>
    if t < fireTime then st
    else { pending := some (t + period), builds := st.builds ++ [fireTime] }

/-- Run the handler over a time-ordered list of event times. -/
def runHandler (period : Nat) (events : List Nat) : HandlerSim :=
  events.foldl (on_any_event period) { pending := none, builds := [] }

/-- All builds eventually triggered by the event list: the recorded ones plus
the still-pending timer, which fires once the system quiesces. -/
def firedBuilds (period : Nat) (events : List Nat) : List Nat :=
  match (runHandler period events).pending with
  | none => (runHandler period events).builds
  | some fireTime => (runHandler period events).builds ++ [fireTime]

/-! ### Lemmas about `pyInsert` -/

theorem length_pyInsert {α : Type} : ∀ (l : List α) (n : Nat) (x : α),
    (pyInsert l n x).length = l.length + 1
  | _, 0, _ => by simp [pyInsert]
  | [], _ + 1, _ => by simp [pyInsert]
  | a :: l, n + 1, x => by
      simp only [pyInsert, List.length_cons, length_pyInsert l n x]

theorem get?_pyInsert_of_lt {α : Type} : ∀ (l : List α) (n : Nat) (x : α) (m : Nat),
    m < n → n ≤ l.length → (pyInsert l n x).get? m = l.get? m
  | _, 0, _, m, hm, _ => absurd hm (Nat.not_lt_zero m)
  | [], n + 1, _, _, _, hn => by simp at hn
  | _ :: _, _ + 1, _, 0, _, _ => by simp [pyInsert]
  | a :: l, n + 1, x, m + 1, hm, hn => by
      simp only [pyInsert, List.get?_cons_succ]
      exact get?_pyInsert_of_lt l n x m (Nat.lt_of_succ_lt_succ hm)
        (Nat.le_of_succ_le_succ (by simpa using hn))

theorem get?_pyInsert_self {α : Type} : ∀ (l : List α) (n : Nat) (x : α),
    n ≤ l.length → (pyInsert l n x).get? n = some x
  | _, 0, _, _ => by simp [pyInsert]
  | [], _ + 1, _, hn => by simp at hn
  | a :: l, n + 1, x, hn => by
      simp only [pyInsert, List.get?_cons_succ]
      exact get?_pyInsert_self l n x (by simpa using hn)

/-! ### Lemmas about `find_indexes` -/

theorem findIndexesFrom_ge (pred : String → Bool) :
    ∀ (l : List String) (i p : Nat), p ∈ findIndexesFrom pred i l → i ≤ p := by
  intro l
  induction l with
  | nil => intro i p h; simp [findIndexesFrom] at h
  | cons s rest ih =>
    intro i p h
    simp only [findIndexesFrom] at h
    split at h
    · rcases List.mem_cons.mp h with rfl | h2
      · exact Nat.le_refl p
      · have := ih (i + 1) p h2; omega
    · have := ih (i + 1) p h; omega

theorem findIndexesFrom_lt (pred : String → Bool) :
    ∀ (l : List String) (i p : Nat), p ∈ findIndexesFrom pred i l → p < i + l.length := by
  intro l
  induction l with
  | nil => intro i p h; simp [findIndexesFrom] at h
  | cons s rest ih =>
    intro i p h
    simp only [findIndexesFrom] at h
    split at h
    · rcases List.mem_cons.mp h with rfl | h2
      · simp
      · have := ih (i + 1) p h2; simp only [List.length_cons]; omega
    · have := ih (i + 1) p h; simp only [List.length_cons]; omega

theorem findIndexesFrom_pairwise (pred : String → Bool) :
    ∀ (l : List String) (i : Nat), (findIndexesFrom pred i l).Pairwise (· < ·) := by
  intro l
  induction l with
  | nil => intro i; simp [findIndexesFrom]
  | cons s rest ih =>
    intro i
    simp only [findIndexesFrom]
    split
    · refine List.pairwise_cons.mpr ⟨?_, ih (i + 1)⟩
      intro q hq
      have := findIndexesFrom_ge pred rest (i + 1) q hq
      omega
    · exact ih (i + 1)

theorem findIndexesFrom_eq_nil_iff (pred : String → Bool) :
    ∀ (l : List String) (i : Nat),
      findIndexesFrom pred i l = [] ↔ ∀ s ∈ l, pred s = false := by
  intro l
  induction l with
  | nil => intro i; simp [findIndexesFrom]
  | cons s rest ih =>
    intro i
    simp only [findIndexesFrom]
    by_cases hs : pred s
    · simp [hs]
    · simp only [if_neg hs, ih (i + 1), List.mem_cons]
      constructor
      · intro h t ht
        rcases ht with rfl | ht
        · exact Bool.eq_false_iff.mpr hs
        · exact h t ht
      · intro h t ht
        exact h t (Or.inr ht)

theorem find_indexes_bound (lines : List String) (pred : String → Bool) :
    ∀ p ∈ find_indexes lines pred, p < lines.length := by
  intro p hp
  have := findIndexesFrom_lt pred lines 0 p hp
  omega

theorem find_indexes_pairwise (lines : List String) (pred : String → Bool) :
    (find_indexes lines pred).Pairwise (· < ·) :=
  findIndexesFrom_pairwise pred lines 0

theorem find_indexes_eq_nil_iff (lines : List String) (pred : String → Bool) :
    find_indexes lines pred = [] ↔ ∀ s ∈ lines, pred s = false :=
  findIndexesFrom_eq_nil_iff pred lines 0

/-! ### The stale-index insertion fold -/

theorem foldl_pyInsert_spec (text : String) :
    ∀ (ps : List Nat) (lines : List String),
      ps.Pairwise (· < ·) → (∀ p ∈ ps, p < lines.length) →
      ((ps.foldl (fun acc index => pyInsert acc (index + 1) text) lines).length
          = lines.length + ps.length)
      ∧ (∀ p ∈ ps,
          (ps.foldl (fun acc index => pyInsert acc (index + 1) text) lines).get? (p + 1)
            = some text)
      ∧ (∀ m, (∀ p ∈ ps, m ≤ p) →
          (ps.foldl (fun acc index => pyInsert acc (index + 1) text) lines).get? m
            = lines.get? m) := by
  intro ps
  induction ps with
  | nil => intro lines _ _; exact ⟨by simp, by simp, fun m _ => by simp⟩
  | cons p ps ih =>
    intro lines hpair hlt
    have hp : p < lines.length := hlt p (List.mem_cons_self p ps)
    have hrest : ∀ q ∈ ps, p < q := (List.pairwise_cons.mp hpair).1
    have hpair2 : ps.Pairwise (· < ·) := (List.pairwise_cons.mp hpair).2
    have hlen1 : (pyInsert lines (p + 1) text).length = lines.length + 1 :=
      length_pyInsert lines (p + 1) text
    have hlt2 : ∀ q ∈ ps, q < (pyInsert lines (p + 1) text).length := by
      intro q hq
      have := hlt q (List.mem_cons_of_mem _ hq)
      omega
    obtain ⟨ihlen, ihmem, ihlow⟩ := ih (pyInsert lines (p + 1) text) hpair2 hlt2
    refine ⟨?_, ?_, ?_⟩
    · rw [List.foldl_cons, ihlen, hlen1]
      simp only [List.length_cons]
      omega
    · intro q hq
      rcases List.mem_cons.mp hq with rfl | hq2
      · rw [List.foldl_cons]
        rw [ihlow (q + 1) (fun r hr => by have := hrest r hr; omega)]
        exact get?_pyInsert_self lines (q + 1) text (by omega)
      · rw [List.foldl_cons]
        exact ihmem q hq2
    · intro m hm
      rw [List.foldl_cons]
      rw [ihlow m (fun r hr => hm r (List.mem_cons_of_mem _ hr))]
      exact get?_pyInsert_of_lt lines (p + 1) text m
        (by have := hm p (List.mem_cons_self p ps); omega) (by omega)

theorem insertAfterMatches_spec (lines : List String) (pred : String → Bool) (text : String) :
    ((insertAfterMatches lines pred text).length
        = lines.length + (find_indexes lines pred).length)
    ∧ (∀ i ∈ find_indexes lines pred,
        (insertAfterMatches lines pred text).get? (i + 1) = some text)
    ∧ (∀ i, (find_indexes lines pred).head? = some i →
        (insertAfterMatches lines pred text).get? i = lines.get? i) := by
  obtain ⟨h1, h2, h3⟩ := foldl_pyInsert_spec text (find_indexes lines pred) lines
    (find_indexes_pairwise lines pred) (find_indexes_bound lines pred)
  refine ⟨h1, h2, ?_⟩
  intro i hi
  apply h3
  intro p hp
  cases hl : find_indexes lines pred with
  | nil => rw [hl] at hi; simp at hi
  | cons a rest =>
    rw [hl] at hi hp
    simp only [List.head?_cons, Option.some.injEq] at hi
    subst hi
    have hpair := find_indexes_pairwise lines pred
    rw [hl] at hpair
    rcases List.mem_cons.mp hp with rfl | hp2
    · exact Nat.le_refl p
    · have := (List.pairwise_cons.mp hpair).1 p hp2
      omega

/-! ### Lemmas about the path functions -/

theorem splitSlash_ne_nil : ∀ (cs : List Char), splitSlash cs ≠ [] := by
  intro cs
  induction cs with
  | nil => simp [splitSlash]
  | cons c cs ih =>
    simp only [splitSlash]
    split
    · simp
    · split <;> simp

theorem splitSlash_no_slash : ∀ (cs : List Char), ∀ q ∈ splitSlash cs, '/' ∉ q := by
  intro cs
  induction cs with
  | nil =>
    intro q hq
    simp only [splitSlash, List.mem_singleton] at hq
    subst hq; simp
  | cons c cs ih =>
    intro q hq
    simp only [splitSlash] at hq
    by_cases hc : c = '/'
    · rw [if_pos hc] at hq
      rcases List.mem_cons.mp hq with rfl | h2
      · simp
      · exact ih q h2
    · rw [if_neg hc] at hq
      cases hsplit : splitSlash cs with
      | nil => exact absurd hsplit (splitSlash_ne_nil cs)
      | cons p ps =>
        rw [hsplit] at hq
        rcases List.mem_cons.mp hq with rfl | h2
        · intro hmem
          rcases List.mem_cons.mp hmem with h | h
          · exact hc h.symm
          · exact ih p (by rw [hsplit]; exact List.mem_cons_self p ps) h
        · exact ih q (by rw [hsplit]; exact List.mem_cons_of_mem p h2)

theorem noSlash_splitSlash_single : ∀ (q : List Char), '/' ∉ q → splitSlash q = [q] := by
  intro q
  induction q with
  | nil => intro _; simp [splitSlash]
  | cons c q ih =>
    intro h
    have hc : ¬ (c = '/') := fun hcc => h (by rw [hcc]; exact List.mem_cons_self _ _)
    simp only [splitSlash, if_neg hc]
    rw [ih (fun hm => h (List.mem_cons_of_mem c hm))]

theorem splitSlash_append (q rest : List Char) (h : '/' ∉ q) :
    splitSlash (q ++ '/' :: rest) = q :: splitSlash rest := by
  induction q with
  | nil => simp [splitSlash]
  | cons c q ih =>
    have hc : ¬ (c = '/') := fun hcc => h (by rw [hcc]; exact List.mem_cons_self _ _)
    have ih2 := ih (fun hm => h (List.mem_cons_of_mem c hm))
    simp only [List.cons_append, splitSlash, if_neg hc, List.append_eq]
    rw [ih2]

theorem splitSlash_joinSlash :
    ∀ (qs : List (List Char)), qs ≠ [] → (∀ q ∈ qs, '/' ∉ q) →
      splitSlash (joinSlash qs) = qs
  | [], h, _ => absurd rfl h
  | [q], _, hq => by
      simp only [joinSlash]
      exact noSlash_splitSlash_single q (hq q (by simp))
  | q :: q2 :: qs, _, hq => by
      have h1 : joinSlash (q :: q2 :: qs) = q ++ '/' :: joinSlash (q2 :: qs) := rfl
      rw [h1, splitSlash_append q _ (hq q (by simp))]
      rw [splitSlash_joinSlash (q2 :: qs) (by simp) (fun r hr => hq r (by simp [hr]))]

theorem joinSlash_head? (p : List Char) (ps : List (List Char)) (hp : p ≠ []) :
    (joinSlash (p :: ps)).head? = p.head? := by
  cases ps with
  | nil => rfl
  | cons q qs =>
    have h1 : joinSlash (p :: q :: qs) = p ++ '/' :: joinSlash (q :: qs) := rfl
    rw [h1]
    cases p with
    | nil => exact absurd rfl hp
    | cons c p2 => rfl

theorem pyPartsL_joinSlash (p : List Char) (ps : List (List Char))
    (h : ∀ q ∈ p :: ps, q ≠ [] ∧ q ≠ ['.'] ∧ '/' ∉ q) :
    pyPartsL (joinSlash (p :: ps)) = p :: ps := by
  unfold pyPartsL
  rw [splitSlash_joinSlash (p :: ps) (by simp) (fun q hq => (h q hq).2.2)]
  apply List.filter_eq_self.mpr
  intro q hq
  have hne : q ≠ [] := (h q hq).1
  have hnd : q ≠ ['.'] := (h q hq).2.1
  simp [hne, hnd]

/-! ### Lemmas about the debounce simulation -/

theorem foldl_on_any_event_ignored (period : Nat) (f : Nat) (bs : List Nat) :
    ∀ (rest : List Nat), (∀ e ∈ rest, e < f) →
      rest.foldl (on_any_event period) { pending := some f, builds := bs } =
        ({ pending := some f, builds := bs } : HandlerSim) := by
  intro rest
  induction rest with
  | nil => simp
  | cons e rest ih =>
    intro h
    rw [List.foldl_cons]
    have he : e < f := h e (List.mem_cons_self e rest)
    have hstep : on_any_event period { pending := some f, builds := bs } e =
        ({ pending := some f, builds := bs } : HandlerSim) := by
      simp [on_any_event, he]
    rw [hstep]
    exact ih (fun x hx => h x (List.mem_cons_of_mem e hx))

/-! ### Composition lemmas for `tweak_html` -/

instance : DecidableEq (Except ProvError String) := fun a b =>
  match a, b with
  | Except.ok x, Except.ok y =>
    if h : x = y then isTrue (by rw [h]) else isFalse (fun hc => h (Except.ok.inj hc))
  | Except.error x, Except.error y =>
    if h : x = y then isTrue (by rw [h]) else isFalse (fun hc => h (Except.error.inj hc))
  | Except.ok _, Except.error _ => isFalse (fun hc => Except.noConfusion hc)
  | Except.error _, Except.ok _ => isFalse (fun hc => Except.noConfusion hc)

theorem tweak_html_all_disabled (fs : String → Bool) (cfg : Config) (html : String)
    (h1 : cfg.custom_css = "") (h2 : fs (pathNorm cfg.warmup) = false)
    (h3 : cfg.footer = "") (h4 : cfg.header = "") (h5 : fs (pathNorm cfg.logo) = false)
    (h6 : fs (pathNorm cfg.background) = false) :
    tweak_html fs html cfg = some (joinLines (pySplitlines html)) := by
  simp [tweak_html, cssStep, warmupStep, footerApply, headerApply, logoApply,
    backgroundApply, h1, h2, h3, h4, h5, h6]

theorem tweak_html_footer_only (fs : String → Bool) (cfg : Config) (html : String)
    (h1 : cfg.custom_css = "") (h2 : fs (pathNorm cfg.warmup) = false)
    (h4 : cfg.header = "") (h5 : fs (pathNorm cfg.logo) = false)
    (h6 : fs (pathNorm cfg.background) = false) :
    tweak_html fs html cfg = some (joinLines (footerApply cfg.footer (pySplitlines html))) := by
  simp [tweak_html, cssStep, warmupStep, headerApply, logoApply,
    backgroundApply, h1, h2, h4, h5, h6]

theorem tweak_html_css_only (fs : String → Bool) (cfg : Config) (html : String)
    (h2 : fs (pathNorm cfg.warmup) = false) (h3 : cfg.footer = "") (h4 : cfg.header = "")
    (h5 : fs (pathNorm cfg.logo) = false) (h6 : fs (pathNorm cfg.background) = false) :
    tweak_html fs html cfg = (cssStep cfg.custom_css (pySplitlines html)).map joinLines := by
  cases hcs : cssStep cfg.custom_css (pySplitlines html) with
  | none => simp [tweak_html, hcs]
  | some l1 =>
    simp [tweak_html, hcs, warmupStep, footerApply, headerApply, logoApply,
      backgroundApply, h2, h3, h4, h5, h6]

theorem cssStep_no_match (css : String) (lines : List String) (hcss : css ≠ "")
    (hno : ∀ l ∈ lines, matchTheme l = false) : cssStep css lines = none := by
  have h : find_indexes lines matchTheme = [] := (find_indexes_eq_nil_iff lines matchTheme).mpr hno
  simp [cssStep, hcss, h]

theorem cssStep_matched (css : String) (lines : List String) (i : Nat) (hcss : css ≠ "")
    (hi : (find_indexes lines matchTheme).head? = some i) :
    cssStep css lines = some (pyInsert lines (i + 1) (cssLink css)) := by
  simp [cssStep, hcss, hi]

theorem tweak_html_no_theme_marker (fs : String → Bool) (cfg : Config) (html : String)
    (hcss : cfg.custom_css ≠ "") (hno : ∀ l ∈ pySplitlines html, matchTheme l = false) :
    tweak_html fs html cfg = none := by
  simp [tweak_html, cssStep_no_match cfg.custom_css (pySplitlines html) hcss hno]

/-! ### Claim C4 -/

/-- C4 counterexample: with all six decoration fields empty, `tweak_html`
does not return its input unchanged.  First instance: on a file system where
the current directory exists (`fs "." = true`), the empty warmup string
enables the warmup branch, which raises an `IndexError` on an input without
the slides marker.  Second instance: even with every branch disabled, the
splitlines/join round trip drops a trailing newline. -/
theorem tweak_disabled_identity_counterexample :
    tweak_html (fun p => p == ".") "x" ⟨"", "", "", "", "", ""⟩ ≠ some "x"
    ∧ tweak_html (fun _ => false) "x\n" ⟨"", "", "", "", "", ""⟩ ≠ some "x\n" := by
  decide

/-- C4 (amended): when the three string-guarded fields (`custom_css`,
`footer`, `header`) are empty and the three path-guarded fields (`warmup`,
`logo`, `background`) name paths that do not exist on disk (the empty string
is not enough: it denotes the current directory, which exists), `tweak_html`
returns the newline-join of the split lines of its input; this is the input
itself, character for character, exactly when the input is invariant under
the splitlines/join round trip (single `\n` separators, no trailing
newline). -/
theorem tweak_disabled_identity_amended (fs : String → Bool) (cfg : Config) (html : String)
    (h1 : cfg.custom_css = "") (h2 : fs (pathNorm cfg.warmup) = false)
    (h3 : cfg.footer = "") (h4 : cfg.header = "") (h5 : fs (pathNorm cfg.logo) = false)
    (h6 : fs (pathNorm cfg.background) = false) :
    tweak_html fs html cfg = some (joinLines (pySplitlines html))
    ∧ (joinLines (pySplitlines html) = html → tweak_html fs html cfg = some html) := by
  have h := tweak_html_all_disabled fs cfg html h1 h2 h3 h4 h5 h6
  exact ⟨h, fun hh => by rw [h, hh]⟩

/-- C4 witness: a concrete run of the amended theorem. -/
theorem tweak_disabled_identity_amended_witness :
    tweak_html (fun _ => false) "a\nb" ⟨"", "", "", "", "", ""⟩ = some "a\nb" := by
  have h := tweak_disabled_identity_amended (fun _ => false) ⟨"", "", "", "", "", ""⟩ "a\nb"
    rfl rfl rfl rfl rfl rfl
  exact h.2 (by decide)

/-! ### Claim C5 -/

/-- C5 counterexample: two reveal-container markers and a non-empty footer.
The output has the two footer copies at line indexes 1 and 3; the line
before the second copy is `a`, which is not a marker line, and the second
marker line (index 4) is followed by `b`, not by a footer copy — so the
second copy is not inserted immediately after a marker line, refuting the
claim at this input. -/
theorem tweak_footer_fanout_counterexample :
    tweak_html (fun _ => false) "<div class=\"reveal\">\na\n<div class=\"reveal\">\nb"
        ⟨"", "", "F", "", "", ""⟩ =
      some ("<div class=\"reveal\">\n<div class=\"footer\">F</div>\na\n<div class=\"footer\">F</div>\n<div class=\"reveal\">\nb")
    ∧ matchReveal "a" = false
    ∧ matchReveal "<div class=\"footer\">F</div>" = false
    ∧ matchReveal "b" = false := by
  decide

/-- C5 (amended): the footer (and likewise header and logo) branch inserts
exactly one copy per marker line of the list it runs on, but at the stale
original indexes: the copy for the match at original index `i` ends up at
output index `i + 1`.  For the first match this is immediately after the
marker; for every later match the earlier insertions have shifted the marker
down, so the copy lands before its marker rather than immediately after
it. -/
theorem tweak_footer_fanout_amended :
    (∀ (lines : List String) (pred : String → Bool) (text : String),
      ((insertAfterMatches lines pred text).length
          = lines.length + (find_indexes lines pred).length)
      ∧ (∀ i ∈ find_indexes lines pred,
          (insertAfterMatches lines pred text).get? (i + 1) = some text)
      ∧ (∀ i, (find_indexes lines pred).head? = some i →
          (insertAfterMatches lines pred text).get? i = lines.get? i))
    ∧ (∀ (fs : String → Bool) (cfg : Config) (html : String),
        cfg.custom_css = "" → fs (pathNorm cfg.warmup) = false → cfg.header = "" →
        fs (pathNorm cfg.logo) = false → fs (pathNorm cfg.background) = false →
        cfg.footer ≠ "" →
        tweak_html fs html cfg =
          some (joinLines
            (insertAfterMatches (pySplitlines html) matchReveal (footerLine cfg.footer))))
    ∧ (∀ (header : String) (lines : List String), header ≠ "" →
        headerApply header lines = insertAfterMatches lines matchReveal (headerLine header))
    ∧ (∀ (fs : String → Bool) (logo : String) (lines : List String),
        fs (pathNorm logo) = true →
        logoApply fs logo lines = insertAfterMatches lines matchReveal (logoLine logo)) := by
  refine ⟨fun lines pred text => insertAfterMatches_spec lines pred text, ?_, ?_, ?_⟩
  · intro fs cfg html h1 h2 h4 h5 h6 hf
    rw [tweak_html_footer_only fs cfg html h1 h2 h4 h5 h6]
    rw [footerApply, if_neg hf]
  · intro header lines hh
    rw [headerApply, if_neg hh]
  · intro fs logo lines hl
    rw [logoApply, if_pos hl]

/-- C5 witness: the amended theorem run on concrete inputs. -/
theorem tweak_footer_fanout_amended_witness :
    tweak_html (fun _ => false) "<div class=\"reveal\">\nx" ⟨"", "", "F", "", "", ""⟩ =
      some (joinLines (insertAfterMatches (pySplitlines "<div class=\"reveal\">\nx")
        matchReveal (footerLine "F")))
    ∧ (insertAfterMatches ["<div class=\"reveal\">", "x"] matchReveal "T").length = 2 + 1 := by
  constructor
  · exact tweak_footer_fanout_amended.2.1 (fun _ => false) ⟨"", "", "F", "", "", ""⟩
      "<div class=\"reveal\">\nx" rfl rfl rfl rfl rfl (by decide)
  · have h := (tweak_footer_fanout_amended.1 ["<div class=\"reveal\">", "x"] matchReveal "T").1
    rw [h]
    decide

/-! ### Claim C6 -/

/-- C6 counterexample: the marker is the regex `stylesheet.*id="theme"`, so
the two substrings must occur in that order.  This input line contains both
`stylesheet` and `id="theme"` — per the claim a marker line exists and the
link should be inserted after it — yet the regex does not match (the order
is reversed), so the code raises `IndexError` instead. -/
theorem tweak_css_marker_counterexample :
    tweak_html (fun _ => false) "<link id=\"theme\" rel=\"stylesheet\">"
        ⟨"c.css", "", "", "", "", ""⟩ = none
    ∧ isInfixL "stylesheet".toList "<link id=\"theme\" rel=\"stylesheet\">".toList = true
    ∧ isInfixL "id=\"theme\"".toList "<link id=\"theme\" rel=\"stylesheet\">".toList = true
    ∧ matchTheme "<link id=\"theme\" rel=\"stylesheet\">" = false := by
  decide

/-- C6 (amended): with a non-empty `custom_css`, if no line matches the
stylesheet theme marker regex — `stylesheet` followed, possibly with other
characters in between, by `id="theme"` (order matters; containing both
substrings in the other order is not a match) — then `tweak_html` fails with
an index-out-of-range error rather than silently skipping; when a matching
line exists, the link line is inserted immediately after the first match,
which keeps its position. -/
theorem tweak_css_marker_amended (fs : String → Bool) (cfg : Config) (html : String)
    (hcss : cfg.custom_css ≠ "") :
    ((∀ l ∈ pySplitlines html, matchTheme l = false) → tweak_html fs html cfg = none)
    ∧ (∀ i, (find_indexes (pySplitlines html) matchTheme).head? = some i →
        ((pyInsert (pySplitlines html) (i + 1) (cssLink cfg.custom_css)).get? (i + 1)
            = some (cssLink cfg.custom_css))
        ∧ ((pyInsert (pySplitlines html) (i + 1) (cssLink cfg.custom_css)).get? i
            = (pySplitlines html).get? i)
        ∧ (fs (pathNorm cfg.warmup) = false → cfg.footer = "" → cfg.header = "" →
            fs (pathNorm cfg.logo) = false → fs (pathNorm cfg.background) = false →
            tweak_html fs html cfg =
              some (joinLines (pyInsert (pySplitlines html) (i + 1)
                (cssLink cfg.custom_css))))) := by
  constructor
  · exact tweak_html_no_theme_marker fs cfg html hcss
  · intro i hi
    have hmem : i ∈ find_indexes (pySplitlines html) matchTheme := by
      cases hl : find_indexes (pySplitlines html) matchTheme with
      | nil => rw [hl] at hi; simp at hi
      | cons a rest =>
        rw [hl] at hi
        simp only [List.head?_cons, Option.some.injEq] at hi
        subst hi
        exact List.mem_cons_self a rest
    have hbound : i < (pySplitlines html).length :=
      find_indexes_bound (pySplitlines html) matchTheme i hmem
    refine ⟨?_, ?_, ?_⟩
    · exact get?_pyInsert_self (pySplitlines html) (i + 1) (cssLink cfg.custom_css)
        (by omega)
    · exact get?_pyInsert_of_lt (pySplitlines html) (i + 1) (cssLink cfg.custom_css) i
        (by omega) (by omega)
    · intro h2 h3 h4 h5 h6
      rw [tweak_html_css_only fs cfg html h2 h3 h4 h5 h6]
      rw [cssStep_matched cfg.custom_css (pySplitlines html) i hcss hi]
      rfl

/-- C6 witness: the amended theorem run on a concrete two-line input whose
first line matches the marker regex. -/
theorem tweak_css_marker_amended_witness :
    tweak_html (fun _ => false) "<link rel=\"stylesheet\" href=\"x\" id=\"theme\">\nbody"
        ⟨"c.css", "", "", "", "", ""⟩ =
      some (joinLines (pyInsert
        (pySplitlines "<link rel=\"stylesheet\" href=\"x\" id=\"theme\">\nbody")
        (0 + 1) (cssLink "c.css"))) := by
  have h := tweak_css_marker_amended (fun _ => false) ⟨"c.css", "", "", "", "", ""⟩
    "<link rel=\"stylesheet\" href=\"x\" id=\"theme\">\nbody" (by decide)
  exact ((h.2 0 (by decide)).2.2) rfl rfl rfl rfl rfl

/-! ### Claim C10 -/

/-- C10: the path-guarded decorations (warmup, logo, background) are enabled
exactly when the file-system oracle holds of the normalised configured path;
`Path("")` normalises to `"."`, which exists on any real file system, so an
empty string enables rather than disables these three decorations (for
warmup this surfaces as the `IndexError` path on input without a slides
marker, and for logo as an inserted logo div with an empty image source),
while emptiness disables exactly the string-guarded decorations
(`custom_css`, `footer`, `header`). -/
theorem tweak_path_guard_semantics :
    pathNorm "" = "."
    ∧ (∀ (fs : String → Bool) (cfg : Config) (html : String),
        fs "." = true → cfg.custom_css = "" → cfg.warmup = "" →
        (∀ l ∈ pySplitlines html, matchSlides l = false) →
        tweak_html fs html cfg = none)
    ∧ (∀ (fs : String → Bool) (cfg : Config) (html : String),
        fs "." = true → cfg.custom_css = "" → cfg.logo = "" →
        fs (pathNorm cfg.warmup) = false → cfg.footer = "" → cfg.header = "" →
        fs (pathNorm cfg.background) = false →
        tweak_html fs html cfg =
          some (joinLines
            (insertAfterMatches (pySplitlines html) matchReveal (logoLine ""))))
    ∧ (∀ (fs : String → Bool) (g : String) (lines : List String),
        fs (pathNorm g) = false →
        warmupStep fs g lines = some lines
        ∧ logoApply fs g lines = lines
        ∧ backgroundApply fs g lines = lines)
    ∧ (∀ (lines : List String),
        cssStep "" lines = some lines
        ∧ footerApply "" lines = lines
        ∧ headerApply "" lines = lines) := by
  refine ⟨rfl, ?_, ?_, ?_, ?_⟩
  · intro fs cfg html hdot h1 hw hno
    have hfind : find_indexes (pySplitlines html) matchSlides = [] :=
      (find_indexes_eq_nil_iff (pySplitlines html) matchSlides).mpr hno
    have hguard : fs (pathNorm cfg.warmup) = true := by
      rw [hw]; exact hdot
    simp [tweak_html, cssStep, warmupStep, h1, hguard, hfind]
  · intro fs cfg html hdot h1 hlogo h2 h3 h4 h6
    have hguard : fs (pathNorm cfg.logo) = true := by
      rw [hlogo]; exact hdot
    rw [← hlogo]
    simp [tweak_html, cssStep, warmupStep, footerApply, headerApply, logoApply,
      backgroundApply, h1, h2, h3, h4, h6, hguard]
  · intro fs g lines hg
    exact ⟨by simp [warmupStep, hg], by simp [logoApply, hg], by simp [backgroundApply, hg]⟩
  · intro lines
    exact ⟨by simp [cssStep], by simp [footerApply], by simp [headerApply]⟩

/-- C10 witness: concrete runs — an empty warmup string on a current
directory that exists makes `tweak_html` fail on marker-free input, and an
empty logo string inserts a logo div. -/
theorem tweak_path_guard_semantics_witness :
    tweak_html (fun p => p == ".") "x" ⟨"", "", "", "", "", ""⟩ = none
    ∧ tweak_html (fun p => p == ".") "<div class=\"reveal\">" ⟨"", "w", "", "", "", "b"⟩ =
        some (joinLines (insertAfterMatches (pySplitlines "<div class=\"reveal\">")
          matchReveal (logoLine ""))) := by
  constructor
  · exact tweak_path_guard_semantics.2.1 (fun p => p == ".") ⟨"", "", "", "", "", ""⟩ "x"
      (by decide) rfl rfl (by decide)
  · exact tweak_path_guard_semantics.2.2.1 (fun p => p == ".")
      ⟨"", "w", "", "", "", "b"⟩ "<div class=\"reveal\">"
      (by decide) rfl rfl (by decide) rfl rfl (by decide)

/-! ### Claim C1 -/

/-- Environment of a typical failed build: the presentation directory holds
neither an `index.html` nor a `.reload` file, and the converter raises. -/
def genEnvFail : GenEnv :=
  { cfg := ⟨"", "", "", "", "", ""⟩, fs := fun _ => false, provisionOk := true,
    srcHasIndex := false, srcIndexContent := "", srcHasReload := false,
    srcReloadLines := 0, convertResult := Except.error () }

/-- Output-directory state before the failed build: a previous good
`index.html` and three reload sentinel lines. -/
def stPrior : BuildState :=
  { indexHtml := some "old deck", reloadLines := 3 }

/-- C1 counterexample: the converter raises, yet neither the prior
`index.html` content nor the prior `.reload` length survives the failed
`generate()` call — the rsync mirror step ran first and deleted both. -/
theorem generate_convert_error_counterexample :
    (generate genEnvFail stPrior).2 = BuildOutcome.convertError
    ∧ (generate genEnvFail stPrior).1.indexHtml ≠ stPrior.indexHtml
    ∧ (generate genEnvFail stPrior).1.reloadLines ≠ stPrior.reloadLines := by
  decide

/-- C1 (amended): if the converter invocation raises, the remaining steps of
that build cycle write nothing — the final state is exactly the rsync mirror
of the presentation directory, so no page is written and no sentinel line is
appended — but the prior content is not preserved: `rsync --delete` has
already run and its exclude list does not cover `index.html` or `.reload`,
so when the presentation directory contains neither file (the normal case),
`index.html` is absent and `.reload` is empty after the failed call. -/
theorem generate_convert_error_amended (env : GenEnv) (s : BuildState)
    (hp : env.provisionOk = true) (e : Unit) (hc : env.convertResult = Except.error e) :
    generate env s = (rsyncStep env s, BuildOutcome.convertError)
    ∧ (env.srcHasIndex = false → (generate env s).1.indexHtml = none)
    ∧ (env.srcHasReload = false → (generate env s).1.reloadLines = 0) := by
  have h1 : generate env s = (rsyncStep env s, BuildOutcome.convertError) := by
    simp [generate, hp, hc]
  refine ⟨h1, ?_, ?_⟩
  · intro h
    rw [h1]
    simp [rsyncStep, h]
  · intro h
    rw [h1]
    simp [rsyncStep, h]

/-- C1 witness: the amended theorem run on the concrete failed build. -/
theorem generate_convert_error_amended_witness :
    generate genEnvFail stPrior = (rsyncStep genEnvFail stPrior, BuildOutcome.convertError)
    ∧ (generate genEnvFail stPrior).1.indexHtml = none
    ∧ (generate genEnvFail stPrior).1.reloadLines = 0 := by
  have h := generate_convert_error_amended genEnvFail stPrior rfl () rfl
  exact ⟨h.1, h.2.1 rfl, h.2.2 rfl⟩

/-! ### Claim C2 -/

/-- C2: the debounce state machine of `Handler`.  An event arriving while
the armed timer is alive is ignored outright (the state is unchanged, so no
new timer is armed and none is restarted); a burst of `1 + |rest|` events
inside one debounce window triggers exactly one build, at the time scheduled
by the first event; and two such bursts separated by more than the window
trigger exactly two builds. -/
theorem handler_debounce_coalesce :
    (∀ (period : Nat) (st : HandlerSim) (t fireTime : Nat),
        st.pending = some fireTime → t < fireTime → on_any_event period st t = st)
    ∧ (∀ (period t0 : Nat) (rest : List Nat),
        (∀ e ∈ rest, t0 ≤ e ∧ e < t0 + period) →
        firedBuilds period (t0 :: rest) = [t0 + period])
    ∧ (∀ (period t0 t1 : Nat) (r0 r1 : List Nat),
        (∀ e ∈ r0, t0 ≤ e ∧ e < t0 + period) →
        (∀ e ∈ r1, t1 ≤ e ∧ e < t1 + period) →
        t0 + period < t1 →
        firedBuilds period (t0 :: (r0 ++ t1 :: r1)) = [t0 + period, t1 + period]) := by
  refine ⟨?_, ?_, ?_⟩
  · intro period st t fireTime hp ht
    cases st with
    | mk pending builds =>
      simp only at hp
      subst hp
      simp [on_any_event, ht]
  · intro period t0 rest h
    have hrun : runHandler period (t0 :: rest) =
        { pending := some (t0 + period), builds := [] } := by
      unfold runHandler
      rw [List.foldl_cons]
      have h0 : on_any_event period { pending := none, builds := [] } t0 =
          { pending := some (t0 + period), builds := [] } := rfl
      rw [h0]
      exact foldl_on_any_event_ignored period (t0 + period) [] rest (fun e he => (h e he).2)
    unfold firedBuilds
    rw [hrun]
    simp
  · intro period t0 t1 r0 r1 h0 h1 hsep
    have hrun : runHandler period (t0 :: (r0 ++ t1 :: r1)) =
        { pending := some (t1 + period), builds := [t0 + period] } := by
      unfold runHandler
      rw [List.foldl_cons]
      have e0 : on_any_event period { pending := none, builds := [] } t0 =
          { pending := some (t0 + period), builds := [] } := rfl
      rw [e0, List.foldl_append]
      rw [foldl_on_any_event_ignored period (t0 + period) [] r0 (fun e he => (h0 e he).2)]
      rw [List.foldl_cons]
      have hn : ¬ (t1 < t0 + period) := by omega
      have e1 : on_any_event period { pending := some (t0 + period), builds := [] } t1 =
          { pending := some (t1 + period), builds := [t0 + period] } := by
        simp [on_any_event, hn]
      rw [e1]
      exact foldl_on_any_event_ignored period (t1 + period) [t0 + period] r1
        (fun e he => (h1 e he).2)
    unfold firedBuilds
    rw [hrun]
    simp
  
/-- C2 witness: the theorem run on concrete bursts and a concrete ignored
event. -/
theorem handler_debounce_coalesce_witness :
    firedBuilds 10 [0, 3, 7] = [10]
    ∧ firedBuilds 10 [0, 3, 25, 27] = [10, 35]
    ∧ on_any_event 10 { pending := some 5, builds := [] } 3 =
        { pending := some 5, builds := [] } := by
  refine ⟨?_, ?_, ?_⟩
  · exact handler_debounce_coalesce.2.1 10 0 [3, 7] (by decide)
  · exact handler_debounce_coalesce.2.2 10 0 25 [3] [27] (by decide) (by decide) (by decide)
  · exact handler_debounce_coalesce.1 10 { pending := some 5, builds := [] } 3 5 rfl
      (by decide)

/-! ### Claim C3 -/

/-- C3: the cleaning invariant.  Every member of the cleaned list has a
relative (non-absolute) path, a non-empty component list, a first component
different from `test`, and a path equal to the component list of some input
member with its top-level component removed; and cleaning never lengthens
the list. -/
theorem clean_tar_members_invariant (members : List TarMember) :
    (∀ m' ∈ clean_revealjs_tar_members members,
        pyIsAbsolute m'.name = false
        ∧ pyPartsL m'.name.toList ≠ []
        ∧ (pyPartsL m'.name.toList).head? ≠ some "test".toList
        ∧ ∃ m ∈ members, pyPartsL m'.name.toList = (pyPartsL m.name.toList).drop 1)
    ∧ (clean_revealjs_tar_members members).length ≤ members.length := by
  constructor
  · intro m' hm'
    rw [clean_revealjs_tar_members] at hm'
    obtain ⟨m, hm, hclean⟩ := List.mem_filterMap.mp hm'
    by_cases habs : pyIsAbsolute m.name
    · rw [cleanMember, if_pos habs] at hclean
      simp at hclean
    · rw [cleanMember, if_neg habs] at hclean
      cases hdrop : (pyPartsL m.name.toList).drop 1 with
      | nil =>
        rw [hdrop] at hclean
        simp at hclean
      | cons p ps =>
        rw [hdrop] at hclean
        have hclean2 : (if p = "test".toList then none
            else some (TarMember.mk (String.mk (joinSlash (p :: ps))))) = some m' := hclean
        by_cases htest : p = "test".toList
        · rw [if_pos htest] at hclean2
          simp at hclean2
        · rw [if_neg htest] at hclean2
          simp only [Option.some.injEq] at hclean2
          subst hclean2
          -- every remaining component is a non-empty, non-dot, slash-free piece
          have hmem : ∀ q ∈ p :: ps, q ≠ [] ∧ q ≠ ['.'] ∧ '/' ∉ q := by
            intro q hq
            have hq2 : q ∈ pyPartsL m.name.toList :=
              List.drop_subset 1 (pyPartsL m.name.toList) (hdrop ▸ hq)
            rw [pyPartsL] at hq2
            have hsplit := List.mem_filter.mp hq2
            have hnoslash := splitSlash_no_slash m.name.toList q hsplit.1
            have hcond := hsplit.2
            simp only [bne_iff_ne, Bool.and_eq_true, ne_eq] at hcond
            exact ⟨hcond.1, hcond.2, hnoslash⟩
          have hround : (TarMember.mk (String.mk (joinSlash (p :: ps)))).name.toList
              = joinSlash (p :: ps) := rfl
          have hparts : pyPartsL (joinSlash (p :: ps)) = p :: ps :=
            pyPartsL_joinSlash p ps hmem
          have hp_ne : p ≠ [] := (hmem p (List.mem_cons_self p ps)).1
          have hp_noslash : '/' ∉ p := (hmem p (List.mem_cons_self p ps)).2.2
          refine ⟨?_, ?_, ?_, ?_⟩
          · -- not absolute: the head character is the head of `p`, not a slash
            obtain ⟨c, p2, rfl⟩ : ∃ c p2, p = c :: p2 := by
              cases p with
              | nil => exact absurd rfl hp_ne
              | cons c p2 => exact ⟨c, p2, rfl⟩
            have hc : c ≠ '/' := fun h => hp_noslash (h ▸ List.mem_cons_self c p2)
            have hhead : (joinSlash ((c :: p2) :: ps)).head? = some c :=
              joinSlash_head? (c :: p2) ps (by simp)
            rw [pyIsAbsolute, hround, hhead]
            simp [hc]
          · rw [hround, hparts]
            simp
          · rw [hround, hparts]
            simp only [List.head?_cons, ne_eq, Option.some.injEq]
            exact htest
          · refine ⟨m, hm, ?_⟩
            rw [hround, hparts, hdrop]
  · exact List.length_filterMap_le cleanMember members

/-- A concrete archive member list: a normal member, an absolute path, a
`test` subtree member and a top-level-only member. -/
def demoMembers : List TarMember :=
  [⟨"reveal.js-3.9.2/js/reveal.js"⟩, ⟨"/abs/path"⟩,
   ⟨"reveal.js-3.9.2/test/test.html"⟩, ⟨"toponly"⟩]

/-- C3 witness: the invariant theorem run on the concrete member list. -/
theorem clean_tar_members_invariant_witness :
    pyIsAbsolute (TarMember.mk "js/reveal.js").name = false
    ∧ (pyPartsL (TarMember.mk "js/reveal.js").name.toList).head? ≠ some "test".toList
    ∧ (clean_revealjs_tar_members demoMembers).length ≤ demoMembers.length := by
  have h := clean_tar_members_invariant demoMembers
  have hmem : (⟨"js/reveal.js"⟩ : TarMember) ∈ clean_revealjs_tar_members demoMembers := by
    decide
  exact ⟨(h.1 ⟨"js/reveal.js"⟩ hmem).1, (h.1 ⟨"js/reveal.js"⟩ hmem).2.2.1, h.2⟩

/-! ### Claims C7, C8, C9 -/

theorem symlinkPhase_ok (env : ProvEnv) (rp t : String)
    (h : (symlinkPhase env rp).2 = Except.ok t) : t = rp := by
  rcases hl : env.priorLink with _ | u
  · simp only [symlinkPhase, hl] at h
    exact (Except.ok.inj h).symm
  · by_cases hu : env.targetExists u
    · simp only [symlinkPhase, hl, if_pos hu] at h
      exact (Except.ok.inj h).symm
    · simp only [symlinkPhase, hl, if_neg hu] at h
      exact absurd h (by simp)

/-- Environment for the C7 counterexample: the literal directory
`ld/latest` exists, the resolved-tag directory `ld/3.9.2` does not. -/
def provEnvLatest : ProvEnv :=
  { dirExists := fun p => p == "ld/latest", latestTag := "3.9.2", extractOk := true,
    priorLink := none, targetExists := fun _ => false }

/-- C7 counterexample: with version `latest`, the directory for the resolved
tag does not exist — per the claim, the existence check uses the resolved
tag, so a download should happen and the link should point at the tag
directory — yet the code checks the literal `ld/latest`, finds it, downloads
nothing, and links to `ld/latest`, not to `ld/3.9.2`. -/
theorem initialize_latest_counterexample :
    provEnvLatest.dirExists ("ld" ++ "/" ++ "3.9.2") = false
    ∧ provEnvLatest.dirExists ("ld" ++ "/" ++ "latest") = true
    ∧ (initialize_localdir provEnvLatest "ld" "latest").downloadedUrl = none
    ∧ (initialize_localdir provEnvLatest "ld" "latest").result
        = Except.ok ("ld" ++ "/" ++ "latest")
    ∧ ("ld" ++ "/" ++ "latest" : String) ≠ "ld" ++ "/" ++ "3.9.2" := by
  decide

/-- C7 (amended): for version `latest`, only the download URL uses the
resolved tag.  The existence check is performed on `localdir/latest` before
any resolution, the archive (when downloaded) is extracted into
`localdir/latest`, and on success the symbolic reference targets
`localdir/latest` — all the literal version string, never the resolved
tag. -/
theorem initialize_latest_amended (env : ProvEnv) (ld : String) :
    (initialize_localdir env ld "latest").checkedPath = ld ++ "/" ++ "latest"
    ∧ (env.dirExists (ld ++ "/" ++ "latest") = false →
        (initialize_localdir env ld "latest").downloadedUrl
          = some (revealUrl env.latestTag))
    ∧ ((initialize_localdir env ld "latest").extractTarget = none
        ∨ (initialize_localdir env ld "latest").extractTarget
            = some (ld ++ "/" ++ "latest"))
    ∧ (∀ t, (initialize_localdir env ld "latest").result = Except.ok t →
        t = ld ++ "/" ++ "latest") := by
  refine ⟨?_, ?_, ?_, ?_⟩
  · by_cases hd : env.dirExists (ld ++ "/" ++ "latest") <;>
      by_cases hex : env.extractOk <;>
      simp [initialize_localdir, hd, hex]
  · intro h
    by_cases hex : env.extractOk <;> simp [initialize_localdir, h, hex]
  · by_cases hd : env.dirExists (ld ++ "/" ++ "latest") <;>
      by_cases hex : env.extractOk <;>
      simp [initialize_localdir, hd, hex]
  · intro t ht
    by_cases hd : env.dirExists (ld ++ "/" ++ "latest")
    · apply symlinkPhase_ok env (ld ++ "/" ++ "latest") t
      simpa [initialize_localdir, hd] using ht
    · by_cases hex : env.extractOk
      · apply symlinkPhase_ok env (ld ++ "/" ++ "latest") t
        simpa [initialize_localdir, hd, hex] using ht
      · exact absurd ht (by simp [initialize_localdir, hd, hex])

/-- C7 witness: the amended theorem run on the counterexample environment
and on an environment that does download. -/
theorem initialize_latest_amended_witness :
    (initialize_localdir provEnvLatest "ld" "latest").checkedPath = "ld" ++ "/" ++ "latest"
    ∧ (initialize_localdir
          { dirExists := fun _ => false, latestTag := "3.9.2", extractOk := true,
            priorLink := none, targetExists := fun _ => false }
          "ld" "latest").downloadedUrl = some (revealUrl "3.9.2") := by
  constructor
  · exact (initialize_latest_amended provEnvLatest "ld").1
  · exact (initialize_latest_amended
      { dirExists := fun _ => false, latestTag := "3.9.2", extractOk := true,
        priorLink := none, targetExists := fun _ => false } "ld").2.1 rfl

/-- Environment for the C8 counterexample: nothing cached, extraction
fails. -/
def provEnvExtractFail : ProvEnv :=
  { dirExists := fun _ => false, latestTag := "3.9.2", extractOk := false,
    priorLink := none, targetExists := fun _ => false }

/-- C8 counterexample: the archive is downloaded, extraction fails, and the
temporary archive file is not deleted — `os.remove` sits after the `with`
block, so the propagating exception skips it, refuting "deleted
regardless". -/
theorem initialize_tmpfile_counterexample :
    (initialize_localdir provEnvExtractFail "ld" "3.0.1").downloadedUrl.isSome = true
    ∧ (initialize_localdir provEnvExtractFail "ld" "3.0.1").result
        = Except.error ProvError.extractError
    ∧ (initialize_localdir provEnvExtractFail "ld" "3.0.1").tmpDeleted = false := by
  decide

/-- C8 (amended): when a download happens, the temporary archive file is
deleted exactly when extraction succeeds; on extraction failure the
exception propagates to the caller (the call fails) and the temporary file
is left behind. -/
theorem initialize_tmpfile_amended (env : ProvEnv) (ld v : String)
    (hd : env.dirExists (ld ++ "/" ++ v) = false) :
    ((initialize_localdir env ld v).downloadedUrl.isSome = true)
    ∧ ((initialize_localdir env ld v).tmpDeleted = env.extractOk)
    ∧ (env.extractOk = false →
        (initialize_localdir env ld v).result = Except.error ProvError.extractError) := by
  by_cases hex : env.extractOk
  · simp [initialize_localdir, hd, hex]
  · simp [initialize_localdir, hd, hex]

/-- C8 witness: the amended theorem run on the failing-extraction
environment. -/
theorem initialize_tmpfile_amended_witness :
    (initialize_localdir provEnvExtractFail "ld" "3.0.1").tmpDeleted
        = provEnvExtractFail.extractOk
    ∧ (initialize_localdir provEnvExtractFail "ld" "3.0.1").result
        = Except.error ProvError.extractError := by
  have h := initialize_tmpfile_amended provEnvExtractFail "ld" "3.0.1" rfl
  exact ⟨h.2.1, h.2.2 rfl⟩

/-- Environment for the C9 counterexample: the version directory is cached,
but the previous `revealjs` link is dangling (its target was deleted), so
`symlink.exists()` is false. -/
def provEnvDangling : ProvEnv :=
  { dirExists := fun _ => true, latestTag := "3.9.2", extractOk := true,
    priorLink := some "ld/3.0.0", targetExists := fun _ => false }

/-- C9 counterexample: a pre-existing (dangling) reference makes the call
fail with `FileExistsError`, refuting "the call never fails due to a
pre-existing reference": `Path.exists` follows the link, the dangling link
is therefore not unlinked, and `symlink_to` then raises. -/
theorem initialize_symlink_counterexample :
    provEnvDangling.priorLink = some "ld/3.0.0"
    ∧ (initialize_localdir provEnvDangling "ld" "3.0.1").result
        = Except.error ProvError.fileExistsError := by
  decide

/-- C9 (amended): when the symbolic-link block is reached, a previous
reference is removed first only if it resolves to an existing target; in
that case (or when no previous reference exists) the new link is created and
points at `localdir/<version string>`.  A previous reference whose target no
longer exists is not removed, and the call fails with `FileExistsError`. -/
theorem initialize_symlink_amended (env : ProvEnv) (ld v : String)
    (hreach : env.dirExists (ld ++ "/" ++ v) = true ∨ env.extractOk = true) :
    (env.priorLink = none →
        (initialize_localdir env ld v).result = Except.ok (ld ++ "/" ++ v))
    ∧ (∀ t, env.priorLink = some t → env.targetExists t = true →
        (initialize_localdir env ld v).unlinkedOld = true
        ∧ (initialize_localdir env ld v).result = Except.ok (ld ++ "/" ++ v))
    ∧ (∀ t, env.priorLink = some t → env.targetExists t = false →
        (initialize_localdir env ld v).result
          = Except.error ProvError.fileExistsError) := by
  have hlink : ∀ (goal : Prop),
      ((symlinkPhase env (ld ++ "/" ++ v)).1 = (initialize_localdir env ld v).unlinkedOld
        ∧ (symlinkPhase env (ld ++ "/" ++ v)).2 = (initialize_localdir env ld v).result
        → goal) → goal := by
    intro goal hgoal
    apply hgoal
    by_cases hd : env.dirExists (ld ++ "/" ++ v)
    · simp [initialize_localdir, hd]
    · rcases hreach with h | h
      · exact absurd h (by simp [hd])
      · simp [initialize_localdir, hd, h]
  apply hlink
  intro ⟨hu, hr⟩
  refine ⟨?_, ?_, ?_⟩
  · intro hnone
    rw [← hr]
    simp [symlinkPhase, hnone]
  · intro t ht hex
    rw [← hr, ← hu]
    simp [symlinkPhase, ht, hex]
  · intro t ht hex
    rw [← hr]
    simp [symlinkPhase, ht, hex]

/-- C9 witness: the amended theorem run on a resolving previous link and on
the dangling one. -/
theorem initialize_symlink_amended_witness :
    (initialize_localdir
        { dirExists := fun _ => true, latestTag := "3.9.2", extractOk := true,
          priorLink := some "ld/3.0.0", targetExists := fun _ => true }
        "ld" "3.0.1").result = Except.ok ("ld" ++ "/" ++ "3.0.1")
    ∧ (initialize_localdir provEnvDangling "ld" "3.0.1").result
        = Except.error ProvError.fileExistsError := by
  constructor
  · exact ((initialize_symlink_amended
      { dirExists := fun _ => true, latestTag := "3.9.2", extractOk := true,
        priorLink := some "ld/3.0.0", targetExists := fun _ => true }
      "ld" "3.0.1" (Or.inl rfl)).2.1 "ld/3.0.0" rfl rfl).2
  · exact (initialize_symlink_amended provEnvDangling "ld" "3.0.1"
      (Or.inl rfl)).2.2 "ld/3.0.0" rfl rfl
